import Mathlib

/-!
Verification of the english-quiz application (src/app.py).

Python strings are modelled as lists of Unicode code points (`PyStr := List Nat`);
`String.codes` turns a Lean string literal into that representation.  Python's
`str.strip` / `str.lower` are modelled on the ASCII range (the application's
data and all properties below only exercise ASCII whitespace and letters).
-/

deriving instance DecidableEq for Except

namespace Quiz

/-- A Python string, as its sequence of Unicode code points. -/
abbrev PyStr := List Nat

/-- Code points of a Lean string literal. -/
def String.codes (s : String) : PyStr :=
  s.data.map Char.toNat

/-- Whitespace test used by `str.strip` (ASCII whitespace: space, \t, \n, \v, \f, \r). -/
def isSpaceCode (n : Nat) : Bool :=
  n = 32 || n = 9 || n = 10 || n = 11 || n = 12 || n = 13

/-- `str.lower`, per code point (ASCII letters). -/
def lowerCode (n : Nat) : Nat :=
  if 65 ≤ n ∧ n ≤ 90 then n + 32 else n

/-- `str.strip()`: remove leading and trailing whitespace. -/
def pyStrip (l : PyStr) : PyStr :=
  List.rdropWhile isSpaceCode (List.dropWhile isSpaceCode l)

/-- `normalize` from src/app.py line 26: `str(s).strip().lower()`. -/
def normalize (l : PyStr) : PyStr :=
  (pyStrip l).map lowerCode

/-- `str.replace(old, new)` for a single-character pattern (the
`replace("＿", "_")` call sites): per-code-point substitution. -/
def replaceChar (o n : Nat) (s : PyStr) : PyStr :=
  s.map (fun c => if c = o then n else c)

/-- `str.replace("____", new)` (the `replace("____", answer)` call site):
scan left to right; on a match emit `new` and continue after the four matched
characters (Python replaces non-overlapping occurrences this way). -/
def replaceMarker (new : PyStr) : PyStr → PyStr
  | 95 :: 95 :: 95 :: 95 :: rest => new ++ replaceMarker new rest
  | c :: rest => c :: replaceMarker new rest
  | [] => []

/-- Python's `in` on strings: `pat` occurs as a contiguous substring of `s`. -/
def containsSub (pat : PyStr) : PyStr → Bool
  | [] => pat.isEmpty
  | c :: rest => pat.isPrefixOf (c :: rest) || containsSub pat rest

/-- Value of a nonempty all-digit string (helper for `parsePyInt`). -/
def digitsVal (l : PyStr) : Option Nat :=
  if l = [] then none
  else if l.all (fun n => 48 ≤ n ∧ n ≤ 57) then
    some (l.foldl (fun a n => a * 10 + (n - 48)) 0)
  else none

/-- Python `int(s)` on an already-stripped string: optional sign followed by
ASCII digits (underscore grouping and non-ASCII digits are not exercised by
this application's data and are not modelled). -/
def parsePyInt (l : PyStr) : Option Int :=
  match l with
  | 43 :: rest => (digitsVal rest).map (fun n => (n : Int))
  | 45 :: rest => (digitsVal rest).map (fun n => -(n : Int))
  | _ => (digitsVal l).map (fun n => (n : Int))

/-- Code point of the full-width underscore `＿` (U+FF3F). -/
def fullWidthUS : Nat := 65343

/-- Code point of `_`. -/
def usCode : Nat := 95

/-- The blank marker `"____"`. -/
def marker : PyStr := [usCode, usCode, usCode, usCode]

/-- `build_full_en` from src/app.py line 30:
`cloze_en.replace("＿", "_").replace("____", answer)`. -/
def build_full_en (cloze_en answer : PyStr) : PyStr :=
  replaceMarker answer (replaceChar fullWidthUS usCode cloze_en)

/-- `QuizItem` from src/app.py. -/
structure QuizItem where
  id : PyStr
  id_num : Int
  ja : PyStr
  cloze_en : PyStr
  answer : PyStr
  full_ja : PyStr
deriving DecidableEq

/-- One data row of the worksheet: the five cells selected by the header map,
`none` for a missing/empty cell. -/
structure RawRow where
  id : Option PyStr
  ja : Option PyStr
  cloze_en : Option PyStr
  answer : Option PyStr
  full_ja : Option PyStr

/-- `get(row, col)` from src/app.py line 53: `"" if v is None else str(v).strip()`. -/
def getCell : Option PyStr → PyStr
  | none => []
  | some v => pyStrip v

def reasonBadId : PyStr := String.codes "id が数字ではありません"
def reasonNoMarker : PyStr := String.codes "cloze_en に ____ がありません"
def reasonEmptyAnswer : PyStr := String.codes "answer が空です"
def reasonEmptyFullJa : PyStr := String.codes "full_ja が空です"

/-- The loop body of `load_items_from_xlsx` (src/app.py lines 61-94) on one row:
either the rejection `(id, reason)` appended to `bad`, or the accepted item. -/
def processRow (r : RawRow) : Except (PyStr × PyStr) QuizItem :=
  let i := getCell r.id
  let ja := getCell r.ja
  let cloze_en := replaceChar fullWidthUS usCode (getCell r.cloze_en)
  let answer := getCell r.answer
  let full_ja := getCell r.full_ja
  match parsePyInt i with
  | none => .error (i, reasonBadId)
  | some id_num =>
    if containsSub marker cloze_en = false then .error (i, reasonNoMarker)
    else if answer = [] then .error (i, reasonEmptyAnswer)
    else if full_ja = [] then .error (i, reasonEmptyFullJa)
    else .ok ⟨i, id_num, ja, cloze_en, answer, full_ja⟩

/-- The row loop of `load_items_from_xlsx`: accepted items and rejected
`(id, reason)` pairs, each in row order. -/
def loadRows : List RawRow → List QuizItem × List (PyStr × PyStr)
  | [] => ([], [])
  | r :: rest =>
    let p := loadRows rest
    match processRow r with
    | .ok it => (it :: p.1, p.2)
    | .error b => (p.1, b :: p.2)

/-- `QUESTIONS_PER_RUN` from src/app.py line 10. -/
def QUESTIONS_PER_RUN : Nat := 10

/-- `random.sample(pool, k)` modelled on an explicit randomness stream: each
step removes the element at index `rᵢ mod (remaining pool size)`.  This covers
exactly the guarantees of `random.sample`: `k` elements drawn without
replacement from `pool`, in a randomness-dependent order. -/
def sampleAux : Nat → List QuizItem → List Nat → List QuizItem
  | 0, _, _ => []
  | _ + 1, [], _ => []
  | k + 1, a :: t, r =>
    let j := (r.headD 0) % (a :: t).length
    (a :: t).get ⟨j, Nat.mod_lt _ (Nat.succ_pos t.length)⟩ ::
      sampleAux k ((a :: t).eraseIdx j) r.tail

inductive Phase
  | start
  | question
  | feedback
  | done
deriving DecidableEq

/-- `st.session_state.last`: the dict built in the submit / skip handlers. -/
structure Outcome where
  is_skip : Bool
  correct : Bool
  user : PyStr
  answer : PyStr
  full_en : PyStr
  full_ja : PyStr
deriving DecidableEq

/-- The quiz-related keys of `st.session_state`. -/
structure Session where
  quiz : List QuizItem
  i : Nat
  correct : Nat
  wrong : Nat
  skipped : Nat
  phase : Phase
  last : Option Outcome
deriving DecidableEq

/-- The pool filtered to the inclusive id range (src/app.py line 106). -/
def rangePool (min_id max_id : Int) (items : List QuizItem) : List QuizItem :=
  items.filter (fun it => decide (min_id ≤ it.id_num) && decide (it.id_num ≤ max_id))

/-- The message of the `ValueError` raised by `init_quiz` (src/app.py lines 109-112). -/
def insufficientMsg (min_id max_id : Int) (poolLen : Nat) : PyStr :=
  String.codes "指定範囲（ID " ++ String.codes (toString min_id) ++
  String.codes "〜" ++ String.codes (toString max_id) ++
  String.codes "）の有効問題が " ++ String.codes (toString poolLen) ++
  String.codes " 件です。" ++ String.codes (toString QUESTIONS_PER_RUN) ++
  String.codes " 件以上必要です。"

/-- `init_quiz` from src/app.py lines 103-123, parameterised by the loaded
item list and the randomness stream consumed by `random.sample`. -/
def init_quiz (min_id max_id : Int) (items : List QuizItem) (rand : List Nat) :
    Except PyStr Session :=
  let pool := rangePool min_id max_id items
  if pool.length < QUESTIONS_PER_RUN then
    .error (insufficientMsg min_id max_id pool.length)
  else
    .ok ⟨sampleAux QUESTIONS_PER_RUN pool rand, 0, 0, 0, 0, .question, none⟩

/-- The user actions the page offers (src/app.py lines 182, 206, 242, 261). -/
inductive Action
  | submit (user : PyStr)
  | skip
  | advance
  | restart

/-- One button-handler execution of the script, dispatched on the current
phase exactly as the top-level `if/elif` chain does.  Actions whose button is
not rendered in the current phase leave the state unchanged; `none` marks the
`IndexError` crash `quiz[i]` would raise with the cursor out of range. -/
def step (s : Session) (a : Action) : Option Session :=
  match s.phase, a with
  | .question, .submit user =>
    match s.quiz.get? s.i with
    | none => none
    | some q =>
      if pyStrip user = [] then
        some { s with skipped := s.skipped + 1,
                      last := some ⟨true, false, user, q.answer,
                                    build_full_en q.cloze_en q.answer, q.full_ja⟩,
                      phase := .feedback }
      else if normalize user = normalize q.answer then
        some { s with correct := s.correct + 1,
                      last := some ⟨false, true, user, q.answer,
                                    build_full_en q.cloze_en q.answer, q.full_ja⟩,
                      phase := .feedback }
      else
        some { s with wrong := s.wrong + 1,
                      last := some ⟨false, false, user, q.answer,
                                    build_full_en q.cloze_en q.answer, q.full_ja⟩,
                      phase := .feedback }
  | .question, .skip =>
    match s.quiz.get? s.i with
    | none => none
    | some q =>
      some { s with skipped := s.skipped + 1,
                    last := some ⟨true, false, [], q.answer,
                                  build_full_en q.cloze_en q.answer, q.full_ja⟩,
                    phase := .feedback }
  | .feedback, .advance =>
    some { s with i := s.i + 1,
                  phase := if s.i + 1 ≥ QUESTIONS_PER_RUN then .done else .question }
  | .done, .restart =>
    some { s with phase := .start }
  | _, _ => some s

/-- Run a list of actions from a state (used to exhibit reachable states). -/
def runActions (s : Session) (acts : List Action) : Option Session :=
  acts.foldlM step s

def counterSum (s : Session) : Nat :=
  s.correct + s.wrong + s.skipped

/-- The sum invariant the code actually maintains: in `feedback` the current
question is already counted but the cursor not yet advanced. -/
def SumInv (s : Session) : Prop :=
  counterSum s = s.i + (if s.phase = Phase.feedback then 1 else 0)

/-- A row all of whose cells are missing or whitespace-only. -/
def RowBlank (r : RawRow) : Prop :=
  getCell r.id = [] ∧ getCell r.ja = [] ∧ getCell r.cloze_en = [] ∧
  getCell r.answer = [] ∧ getCell r.full_ja = []

/-- Every code point of `l` is whitespace. -/
def allSpace (l : PyStr) : Prop :=
  ∀ c ∈ l, isSpaceCode c = true

/-- Two code points that are the same letter up to ASCII casing
(or the same code point). -/
def caseEquiv (c d : Nat) : Prop :=
  c = d ∨ (65 ≤ c ∧ c ≤ 90 ∧ d = c + 32) ∨ (65 ≤ d ∧ d ≤ 90 ∧ c = d + 32)

/-- `x` and `y` differ only in letter casing and/or surrounding whitespace. -/
def caseWsVariant (x y : PyStr) : Prop :=
  ∃ u₁ cx u₂ v₁ cy v₂, x = u₁ ++ cx ++ u₂ ∧ y = v₁ ++ cy ++ v₂ ∧
    allSpace u₁ ∧ allSpace u₂ ∧ allSpace v₁ ∧ allSpace v₂ ∧
    List.Forall₂ caseEquiv cx cy

/-- A valid quiz item with numeric id `k` (demo data for concrete runs). -/
def mkItem (k : Nat) : QuizItem :=
  ⟨String.codes (toString k), (k : Int), String.codes "ja",
   String.codes "I ____ home", String.codes "go", String.codes "tr"⟩

/-- Ten valid items with ids 1..10. -/
def demoItems : List QuizItem :=
  [mkItem 1, mkItem 2, mkItem 3, mkItem 4, mkItem 5,
   mkItem 6, mkItem 7, mkItem 8, mkItem 9, mkItem 10]

/-- Skip and advance through all ten questions. -/
def demoActs : List Action :=
  (List.replicate 10 [Action.skip, Action.advance]).flatten

/-- The session `init_quiz 1 1000 demoItems [0]` produces. -/
def demoSession : Session :=
  ⟨demoItems, 0, 0, 0, 0, .question, none⟩

/-- `demoSession` after one skip. -/
def demoFeedback : Session :=
  ⟨demoItems, 0, 0, 0, 1, .feedback,
   some ⟨true, false, [], String.codes "go", String.codes "I go home",
         String.codes "tr"⟩⟩

/-- `demoSession` after skipping and advancing through all ten questions. -/
def demoDone : Session :=
  ⟨demoItems, 10, 0, 0, 10, .done,
   some ⟨true, false, [], String.codes "go", String.codes "I go home",
         String.codes "tr"⟩⟩

/-! ### Sanity facts about the demo data -/

theorem demoSession_reachable :
    init_quiz 1 1000 demoItems [0] = .ok demoSession := by decide

theorem demoFeedback_reachable :
    step demoSession Action.skip = some demoFeedback := by decide

theorem demoDone_reachable :
    runActions demoSession demoActs = some demoDone := by decide

/-! ### C5 -/

/-- Claim C5 (confirmed): a row with cloze text `"I ___ home"` (three
underscores) is rejected with the missing-blank-marker reason; a row with
`"I ____ home"` and answer `"go"` is accepted and `build_full_en` yields
`"I go home"`; full-width underscores are normalized to `_` before the
blank-marker check (the row is accepted and stores the normalized cloze). -/
theorem quiz_C5_blank_marker :
    processRow ⟨some (String.codes "1"), some (String.codes "ja"),
        some (String.codes "I ___ home"), some (String.codes "go"),
        some (String.codes "tr")⟩
      = .error (String.codes "1", reasonNoMarker)
  ∧ processRow ⟨some (String.codes "1"), some (String.codes "ja"),
        some (String.codes "I ____ home"), some (String.codes "go"),
        some (String.codes "tr")⟩
      = .ok ⟨String.codes "1", 1, String.codes "ja", String.codes "I ____ home",
             String.codes "go", String.codes "tr"⟩
  ∧ build_full_en (String.codes "I ____ home") (String.codes "go")
      = String.codes "I go home"
  ∧ processRow ⟨some (String.codes "1"), some (String.codes "ja"),
        some (String.codes "I ＿＿＿＿ home"), some (String.codes "go"),
        some (String.codes "tr")⟩
      = .ok ⟨String.codes "1", 1, String.codes "ja", String.codes "I ____ home",
             String.codes "go", String.codes "tr"⟩ :=
  ⟨by decide, by decide, by decide, by decide⟩

/-! ### C7 -/

/-- Claim C7 (counterexample): an entirely blank row is not silently skipped:
it produces an entry in the rejected list (empty id, non-numeric-id reason),
contradicting the claim that it produces no rejected entry. -/
theorem quiz_C7_counterexample :
    loadRows [⟨none, none, none, none, none⟩]
        = ([], [(([] : PyStr), reasonBadId)])
    ∧ (loadRows [⟨none, none, none, none, none⟩]).2 ≠ [] :=
  ⟨by decide, by decide⟩

/-- Claim C7 (amended): an entirely blank row produces no `QuizItem`, but it
is recorded in the rejected list with the empty identifier and the
non-numeric-id reason (its empty id fails integer parsing). -/
theorem quiz_C7_amended (r : RawRow) (h : RowBlank r) :
    processRow r = .error ([], reasonBadId)
    ∧ ∀ rest, loadRows (r :: rest)
        = ((loadRows rest).1, ([], reasonBadId) :: (loadRows rest).2) := by
  have hid : getCell r.id = [] := h.1
  have hp : processRow r = .error ([], reasonBadId) := by
    simp [processRow, hid, parsePyInt, digitsVal]
  refine ⟨hp, fun rest => ?_⟩
  simp [loadRows, hp]

theorem quiz_C7_witness :
    processRow ⟨none, none, none, none, none⟩ = .error ([], reasonBadId) :=
  (quiz_C7_amended ⟨none, none, none, none, none⟩
    ⟨rfl, rfl, rfl, rfl, rfl⟩).1

/-! ### C2 -/

/-- Claim C2 (counterexample): on a row whose id is not numeric *and* whose
cloze text lacks the blank marker, the recorded reason is the non-numeric-id
reason, not the missing-blank-marker reason the claimed check order (marker
first, id last) would give. -/
theorem quiz_C2_counterexample :
    processRow ⟨some (String.codes "x"), some (String.codes "ja"),
        some (String.codes "I go home"), some (String.codes "go"),
        some (String.codes "tr")⟩
      = .error (String.codes "x", reasonBadId)
    ∧ reasonBadId ≠ reasonNoMarker :=
  ⟨by decide, by decide⟩

/-- Claim C2 (amended): per-row validation applies the checks in the order
(1) identifier not parseable as an integer, (2) missing blank marker,
(3) empty answer, (4) empty full translation; the first failing check
determines the single recorded reason, and each row is validated
independently of the others (the loader output is a per-row map). -/
theorem quiz_C2_amended :
    (∀ r : RawRow,
      (parsePyInt (getCell r.id) = none →
        processRow r = .error (getCell r.id, reasonBadId)) ∧
      (∀ n, parsePyInt (getCell r.id) = some n →
        containsSub marker (replaceChar fullWidthUS usCode (getCell r.cloze_en))
            = false →
        processRow r = .error (getCell r.id, reasonNoMarker)) ∧
      (∀ n, parsePyInt (getCell r.id) = some n →
        containsSub marker (replaceChar fullWidthUS usCode (getCell r.cloze_en))
            = true →
        getCell r.answer = [] →
        processRow r = .error (getCell r.id, reasonEmptyAnswer)) ∧
      (∀ n, parsePyInt (getCell r.id) = some n →
        containsSub marker (replaceChar fullWidthUS usCode (getCell r.cloze_en))
            = true →
        getCell r.answer ≠ [] → getCell r.full_ja = [] →
        processRow r = .error (getCell r.id, reasonEmptyFullJa)))
  ∧ (∀ rows : List RawRow,
      loadRows rows
        = (rows.filterMap (fun r => (processRow r).toOption),
           rows.filterMap (fun r =>
             match processRow r with
             | .error b => some b
             | .ok _ => none))) := by
  constructor
  · intro r
    refine ⟨fun h => ?_, fun n h hm => ?_, fun n h hm ha => ?_,
            fun n h hm ha hf => ?_⟩
    · simp [processRow, h]
    · simp [processRow, h, hm]
    · simp [processRow, h, hm, ha]
    · simp [processRow, h, hm, ha, hf]
  · intro rows
    induction rows with
    | nil => rfl
    | cons r rest ih =>
      cases hp : processRow r <;>
        simp [loadRows, hp, ih, List.filterMap_cons, Except.toOption]

theorem quiz_C2_witness :
    processRow ⟨some (String.codes "5"), some (String.codes "ja"),
        some (String.codes "abc"), some (String.codes "go"),
        some (String.codes "tr")⟩
      = .error (String.codes "5", reasonNoMarker) :=
  ((quiz_C2_amended.1 _).2.1 5 (by decide) (by decide))

/-! ### C3 -/

/-- Claim C3 (confirmed): on submit during the question phase, empty or
whitespace-only text increments `skipped` with a skipped outcome (never
wrong); otherwise the submission is scored by `normalize` equality,
incrementing `correct` on equality and `wrong` otherwise; and
`normalize "  Go  " = normalize "go"`, so that submission is scored
correct against answer `"go"`. -/
theorem quiz_C3_submit_scoring :
    (∀ (s : Session) (q : QuizItem) (user : PyStr),
      s.phase = Phase.question → s.quiz[s.i]? = some q →
      ((pyStrip user = [] →
          step s (Action.submit user)
            = some { s with skipped := s.skipped + 1,
                            last := some ⟨true, false, user, q.answer,
                                          build_full_en q.cloze_en q.answer,
                                          q.full_ja⟩,
                            phase := Phase.feedback })
       ∧ (pyStrip user ≠ [] → normalize user = normalize q.answer →
          step s (Action.submit user)
            = some { s with correct := s.correct + 1,
                            last := some ⟨false, true, user, q.answer,
                                          build_full_en q.cloze_en q.answer,
                                          q.full_ja⟩,
                            phase := Phase.feedback })
       ∧ (pyStrip user ≠ [] → normalize user ≠ normalize q.answer →
          step s (Action.submit user)
            = some { s with wrong := s.wrong + 1,
                            last := some ⟨false, false, user, q.answer,
                                          build_full_en q.cloze_en q.answer,
                                          q.full_ja⟩,
                            phase := Phase.feedback })))
  ∧ normalize (String.codes "  Go  ") = normalize (String.codes "go") := by
  refine ⟨fun s q user hp hq => ⟨fun he => ?_, fun he hc => ?_, fun he hc => ?_⟩,
          by decide⟩
  · simp [step, hp, hq, he]
  · simp [step, hp, hq, he, hc]
  · simp [step, hp, hq, he, hc]

theorem quiz_C3_witness :
    step demoSession (Action.submit (String.codes "  Go  "))
      = some { demoSession with
               correct := demoSession.correct + 1,
               last := some ⟨false, true, String.codes "  Go  ", (mkItem 1).answer,
                             build_full_en (mkItem 1).cloze_en (mkItem 1).answer,
                             (mkItem 1).full_ja⟩,
               phase := Phase.feedback } :=
  ((quiz_C3_submit_scoring.1 demoSession (mkItem 1) (String.codes "  Go  ")
      rfl (by decide)).2.1 (by decide) (by decide))

/-! ### C1 -/

/-- Claim C1 (counterexample): starting a run on ten valid items and
submitting empty text leaves the cursor at 0 while the counter sum is 1, so
`correct + wrong + skipped = i` does not hold after submit. -/
theorem quiz_C1_counterexample :
    ((init_quiz 1 1000 demoItems [0]).toOption.bind
        (fun s => step s (Action.submit []))).map
      (fun s1 => (counterSum s1, s1.i, decide (counterSum s1 = s1.i)))
    = some (1, 0, false) := by decide

/-- Claim C1 (amended): a fresh session satisfies
`correct + wrong + skipped = i`, and every action preserves the invariant
that the sum equals `i` except in the feedback phase, where it equals
`i + 1` (submit and skip count the current question before the cursor moves);
in particular the sum equals the cursor again after advance and after
restart. -/
theorem quiz_C1_amended :
    (∀ min_id max_id items rand s,
      init_quiz min_id max_id items rand = .ok s →
      counterSum s = s.i ∧ SumInv s)
  ∧ (∀ s a s', SumInv s → step s a = some s' → SumInv s')
  ∧ (∀ s s', SumInv s → s.phase = Phase.feedback →
      step s Action.advance = some s' → counterSum s' = s'.i)
  ∧ (∀ s s', SumInv s → s.phase = Phase.done →
      step s Action.restart = some s' → counterSum s' = s'.i) := by
  have hinit : ∀ (min_id max_id : Int) (items : List QuizItem) (rand : List Nat)
      (s : Session), init_quiz min_id max_id items rand = .ok s →
      counterSum s = s.i ∧ SumInv s := by
    intro min_id max_id items rand s h
    simp only [init_quiz] at h
    split at h
    · exact absurd h (by simp)
    · injection h with h
      subst h
      constructor <;> simp [counterSum, SumInv]
  have hstep : ∀ s a s', SumInv s → step s a = some s' → SumInv s' := by
    intro s a s' hinv hst
    rcases s with ⟨quiz, i, c, w, k, ph, la⟩
    cases ph <;> cases a <;> simp only [step] at hst
    all_goals try (injection hst with hst; subst hst; exact hinv)
    case question.submit user =>
      simp only [SumInv, counterSum] at hinv
      cases hq : quiz.get? i with
      | none => rw [hq] at hst; exact absurd hst (by simp)
      | some q =>
        rw [hq] at hst
        dsimp only at hst
        split_ifs at hst <;>
          (injection hst with hst; subst hst;
           simp_all [SumInv, counterSum]) <;> omega
    case question.skip =>
      simp only [SumInv, counterSum] at hinv
      cases hq : quiz.get? i with
      | none => rw [hq] at hst; exact absurd hst (by simp)
      | some q =>
        rw [hq] at hst
        injection hst with hst; subst hst
        simp_all [SumInv, counterSum]
        omega
    case feedback.advance =>
      simp only [SumInv, counterSum] at hinv
      injection hst with hst; subst hst
      simp only [SumInv, counterSum]
      dsimp only
      split <;> simp_all
  refine ⟨hinit, hstep, ?_, ?_⟩
  · intro s s' hinv hf hst
    have h2 := hstep s Action.advance s' hinv hst
    rcases s with ⟨quiz, i, c, w, k, ph, la⟩
    subst hf
    simp only [step] at hst
    injection hst with hst; subst hst
    simp only [SumInv, counterSum] at *
    split at h2 <;> simp_all
  · intro s s' hinv hd hst
    rcases s with ⟨quiz, i, c, w, k, ph, la⟩
    subst hd
    simp only [step] at hst
    injection hst with hst; subst hst
    simp only [SumInv, counterSum] at *
    simp_all

theorem quiz_C1_witness : SumInv demoFeedback :=
  quiz_C1_amended.2.1 demoSession Action.skip demoFeedback
    (by simp [SumInv, counterSum, demoSession]) (by decide)

/-! ### C6 -/

/-- Claim C6 (counterexample): from a completed run (reached by skipping and
advancing through all ten questions of a fresh session), the restart action
yields the start phase — not the question phase — with the old sample's
counters and cursor untouched (skipped = 10, i = 10) and no resampling. -/
theorem quiz_C6_counterexample :
    (((init_quiz 1 1000 demoItems [0]).toOption.bind
        (fun s => runActions s demoActs)).bind
      (fun s => step s Action.restart)).map
      (fun s1 => (s1.phase, s1.correct, s1.wrong, s1.skipped, s1.i,
                  decide (s1.quiz = demoSession.quiz)))
    = some (Phase.start, 0, 0, 10, 10, true) := by decide

/-- Claim C6 (amended): the restart action taken in the done phase only
returns the session to the start phase, changing nothing else; the fresh
sample of 10 and the reset of all counters and the cursor happen only when
the subsequent start action invokes `init_quiz`. -/
theorem quiz_C6_amended :
    (∀ s : Session, s.phase = Phase.done →
      step s Action.restart = some { s with phase := Phase.start })
  ∧ (∀ min_id max_id items rand s,
      init_quiz min_id max_id items rand = .ok s →
      s.quiz = sampleAux QUESTIONS_PER_RUN (rangePool min_id max_id items) rand
      ∧ s.i = 0 ∧ s.correct = 0 ∧ s.wrong = 0 ∧ s.skipped = 0
      ∧ s.phase = Phase.question ∧ s.last = none) := by
  constructor
  · intro s hd
    rcases s with ⟨quiz, i, c, w, k, ph, la⟩
    subst hd
    rfl
  · intro min_id max_id items rand s h
    simp only [init_quiz] at h
    split at h
    · exact absurd h (by simp)
    · injection h with h
      subst h
      simp

theorem quiz_C6_witness :
    step demoDone Action.restart = some { demoDone with phase := Phase.start } :=
  quiz_C6_amended.1 demoDone rfl

/-! ### C8 -/

/-- Claim C8 (counterexample): after skipping the first question of a fresh
session and advancing, the session is back in the question phase but
`last` still holds the previous outcome — advance does not clear it. -/
theorem quiz_C8_counterexample :
    (((init_quiz 1 1000 demoItems [0]).toOption.bind
        (fun s => step s Action.skip)).bind
      (fun s => step s Action.advance)).map
      (fun s1 => (s1.phase, s1.last.isSome))
    = some (Phase.question, true) := by decide

/-- Claim C8 (amended): the advance action leaves `last` unchanged (it is set
to `none` only by quiz initialization), so the previous outcome remains
stored — merely unread — during the following question or done phase. -/
theorem quiz_C8_amended :
    (∀ s s' : Session, s.phase = Phase.feedback →
      step s Action.advance = some s' →
      s'.last = s.last ∧ (s'.phase = Phase.question ∨ s'.phase = Phase.done))
  ∧ (∀ min_id max_id items rand s,
      init_quiz min_id max_id items rand = .ok s → s.last = none) := by
  constructor
  · intro s s' hf hst
    rcases s with ⟨quiz, i, c, w, k, ph, la⟩
    subst hf
    simp only [step] at hst
    injection hst with hst; subst hst
    constructor
    · rfl
    · dsimp only
      split <;> simp
  · intro min_id max_id items rand s h
    simp only [init_quiz] at h
    split at h
    · exact absurd h (by simp)
    · injection h with h
      subst h
      rfl

theorem quiz_C8_witness :
    ({ demoFeedback with i := 1, phase := Phase.question } : Session).last
        = demoFeedback.last
    ∧ (({ demoFeedback with i := 1, phase := Phase.question } : Session).phase
          = Phase.question
       ∨ ({ demoFeedback with i := 1, phase := Phase.question } : Session).phase
          = Phase.done) :=
  quiz_C8_amended.1 demoFeedback
    { demoFeedback with i := 1, phase := Phase.question } rfl (by decide)

/-! ### C4: sampling -/

theorem sampleAux_length : ∀ (k : Nat) (pool : List QuizItem) (r : List Nat),
    k ≤ pool.length → (sampleAux k pool r).length = k := by
  intro k
  induction k with
  | zero => intro pool r _; rfl
  | succ k ih =>
    intro pool r h
    cases pool with
    | nil => simp at h
    | cons a t =>
      have hjlt : (r.headD 0) % (a :: t).length < (a :: t).length :=
        Nat.mod_lt _ (Nat.succ_pos t.length)
      have hlen : k ≤ ((a :: t).eraseIdx ((r.headD 0) % (a :: t).length)).length := by
        have := List.length_eraseIdx_add_one hjlt
        omega
      simp only [sampleAux]
      rw [List.length_cons, ih _ r.tail hlen]

theorem sampleAux_subperm : ∀ (k : Nat) (pool : List QuizItem) (r : List Nat),
    k ≤ pool.length → List.Subperm (sampleAux k pool r) pool := by
  intro k
  induction k with
  | zero => intro pool r _; exact List.nil_subperm
  | succ k ih =>
    intro pool r h
    cases pool with
    | nil => simp at h
    | cons a t =>
      simp only [sampleAux]
      have hjlt : (r.headD 0) % (a :: t).length < (a :: t).length :=
        Nat.mod_lt _ (Nat.succ_pos t.length)
      have hperm : (a :: t).Perm
          ((a :: t).get ⟨(r.headD 0) % (a :: t).length, hjlt⟩ ::
            (a :: t).eraseIdx ((r.headD 0) % (a :: t).length)) := by
        have h1 := List.perm_cons_erase
          (List.get_mem (a :: t) ((r.headD 0) % (a :: t).length) hjlt)
        have h2 := List.erase_getElem hjlt
        rw [List.get_eq_getElem] at h1 ⊢
        exact h1.trans (h2.cons _)
      have hlen : k ≤ ((a :: t).eraseIdx ((r.headD 0) % (a :: t).length)).length := by
        have := List.length_eraseIdx_add_one hjlt
        omega
      exact ((List.subperm_cons _).mpr (ih _ r.tail hlen)).trans hperm.symm.subperm


theorem isPrefixOf_append_self (p y : PyStr) : p.isPrefixOf (p ++ y) = true := by
  induction p with
  | nil => simp [List.isPrefixOf]
  | cons c t ih => simp [List.isPrefixOf, ih]

theorem containsSub_of_isPrefixOf {p s : PyStr} (h : p.isPrefixOf s = true) :
    containsSub p s = true := by
  cases s with
  | nil =>
    cases p with
    | nil => rfl
    | cons c t => simp [List.isPrefixOf] at h
  | cons c t => simp [containsSub, h]

theorem containsSub_append_middle (p x y : PyStr) :
    containsSub p (x ++ p ++ y) = true := by
  induction x with
  | nil =>
    simp only [List.nil_append]
    exact containsSub_of_isPrefixOf (isPrefixOf_append_self p y)
  | cons a x ih =>
    show containsSub p (a :: (x ++ p ++ y)) = true
    simp only [containsSub, Bool.or_eq_true]
    exact Or.inr ih

/-- Claim C4 (confirmed): `init_quiz` fails if and only if the range-filtered
pool has fewer than 10 records, and its failure message states the actual
pool size and the required count 10; on success the drawn quiz consists of
10 records taken without repetition from the filtered pool (a sub-permutation),
and a pool of exactly 10 is returned whole, in some order. -/
theorem quiz_C4_sampling :
    ∀ (min_id max_id : Int) (items : List QuizItem) (rand : List Nat),
      ((∃ msg, init_quiz min_id max_id items rand = .error msg)
        ↔ (rangePool min_id max_id items).length < QUESTIONS_PER_RUN)
      ∧ (∀ msg, init_quiz min_id max_id items rand = .error msg →
          containsSub
            (String.codes (toString (rangePool min_id max_id items).length)) msg
              = true
          ∧ containsSub (String.codes (toString QUESTIONS_PER_RUN)) msg = true)
      ∧ (∀ s, init_quiz min_id max_id items rand = .ok s →
          s.quiz.length = QUESTIONS_PER_RUN
          ∧ List.Subperm s.quiz (rangePool min_id max_id items))
      ∧ ((rangePool min_id max_id items).length = QUESTIONS_PER_RUN →
          ∀ s, init_quiz min_id max_id items rand = .ok s →
            s.quiz.Perm (rangePool min_id max_id items)) := by
  intro min_id max_id items rand
  by_cases hlt : (rangePool min_id max_id items).length < QUESTIONS_PER_RUN
  · refine ⟨⟨fun _ => hlt,
              fun _ => ⟨insufficientMsg min_id max_id
                          (rangePool min_id max_id items).length,
                        by simp [init_quiz, hlt]⟩⟩,
            fun msg hmsg => ?_, fun s hs => ?_, fun heq s hs => ?_⟩
    · simp only [init_quiz, if_pos hlt, Except.error.injEq] at hmsg
      subst hmsg
      constructor
      · have := containsSub_append_middle
          (String.codes (toString (rangePool min_id max_id items).length))
          (String.codes "指定範囲（ID " ++ String.codes (toString min_id) ++
           String.codes "〜" ++ String.codes (toString max_id) ++
           String.codes "）の有効問題が ")
          (String.codes " 件です。" ++ String.codes (toString QUESTIONS_PER_RUN) ++
           String.codes " 件以上必要です。")
        simpa [insufficientMsg, List.append_assoc] using this
      · have := containsSub_append_middle
          (String.codes (toString QUESTIONS_PER_RUN))
          (String.codes "指定範囲（ID " ++ String.codes (toString min_id) ++
           String.codes "〜" ++ String.codes (toString max_id) ++
           String.codes "）の有効問題が " ++
           String.codes (toString (rangePool min_id max_id items).length) ++
           String.codes " 件です。")
          (String.codes " 件以上必要です。")
        simpa [insufficientMsg, List.append_assoc] using this
    · simp [init_quiz, hlt] at hs
    · omega
  · have hge : QUESTIONS_PER_RUN ≤ (rangePool min_id max_id items).length := by omega
    refine ⟨⟨fun ⟨msg, hmsg⟩ => ?_, fun hcon => absurd hcon hlt⟩,
            fun msg hmsg => ?_, fun s hs => ?_, fun hetq s hs => ?_⟩
    · simp [init_quiz, hlt] at hmsg
    · simp [init_quiz, hlt] at hmsg
    · simp only [init_quiz, if_neg hlt, Except.ok.injEq] at hs
      subst hs
      exact ⟨sampleAux_length _ _ _ hge, sampleAux_subperm _ _ _ hge⟩
    · simp only [init_quiz, if_neg hlt, Except.ok.injEq] at hs
      subst hs
      exact (sampleAux_subperm _ _ _ hge).perm_of_length_le
        (by rw [sampleAux_length _ _ _ hge]; omega)

theorem quiz_C4_witness :
    (demoSession.quiz.length = QUESTIONS_PER_RUN
      ∧ List.Subperm demoSession.quiz (rangePool 1 1000 demoItems))
    ∧ demoSession.quiz.Perm (rangePool 1 1000 demoItems)
    ∧ (containsSub
         (String.codes (toString (rangePool 1 1000 (demoItems.take 9)).length))
         (insufficientMsg 1 1000 9) = true
       ∧ containsSub (String.codes (toString QUESTIONS_PER_RUN))
         (insufficientMsg 1 1000 9) = true) :=
  ⟨(quiz_C4_sampling 1 1000 demoItems [0]).2.2.1 demoSession (by decide),
   (quiz_C4_sampling 1 1000 demoItems [0]).2.2.2 (by decide) demoSession
     (by decide),
   (quiz_C4_sampling 1 1000 (demoItems.take 9) [0]).2.1
     (insufficientMsg 1 1000 9) (by decide)⟩

/-! ### C9: normalization algebra -/

theorem isSpaceCode_lowerCode (n : Nat) :
    isSpaceCode (lowerCode n) = isSpaceCode n := by
  unfold lowerCode
  split
  · rename_i h
    have h1 : isSpaceCode (n + 32) = false := by
      simp only [isSpaceCode, Bool.or_eq_false_iff, decide_eq_false_iff_not]
      omega
    have h2 : isSpaceCode n = false := by
      simp only [isSpaceCode, Bool.or_eq_false_iff, decide_eq_false_iff_not]
      omega
    rw [h1, h2]
  · rfl

theorem lowerCode_idem (n : Nat) : lowerCode (lowerCode n) = lowerCode n := by
  by_cases h : 65 ≤ n ∧ n ≤ 90
  · simp only [lowerCode, if_pos h]
    rw [if_neg (by omega)]
  · simp only [lowerCode, if_neg h]

theorem lowerCode_eq_of_caseEquiv {c d : Nat} (hcd : caseEquiv c d) :
    lowerCode c = lowerCode d := by
  rcases hcd with h | ⟨h1, h2, h3⟩ | ⟨h1, h2, h3⟩
  · rw [h]
  · subst h3
    simp only [lowerCode]
    rw [if_pos ⟨h1, h2⟩, if_neg (by omega)]
  · subst h3
    simp only [lowerCode]
    rw [if_neg (by omega), if_pos ⟨h1, h2⟩]

theorem dropWhile_append_allSpace {u : PyStr} (hu : allSpace u) (l : PyStr) :
    List.dropWhile isSpaceCode (u ++ l) = List.dropWhile isSpaceCode l := by
  induction u with
  | nil => rfl
  | cons c u ih =>
    have hc : isSpaceCode c = true := hu c (by simp)
    have hu' : allSpace u := fun x hx => hu x (by simp [hx])
    simp [List.dropWhile_cons, hc, ih hu']

theorem rdropWhile_append_allSpace {u : PyStr} (hu : allSpace u) (m : PyStr) :
    List.rdropWhile isSpaceCode (m ++ u) = List.rdropWhile isSpaceCode m := by
  unfold List.rdropWhile
  rw [List.reverse_append,
      dropWhile_append_allSpace (fun x hx => hu x (List.mem_reverse.mp hx))]

theorem dropWhile_append_of_ne_nil {p : Nat → Bool} {l : PyStr} (u : PyStr)
    (h : List.dropWhile p l ≠ []) :
    List.dropWhile p (l ++ u) = List.dropWhile p l ++ u := by
  induction l with
  | nil => simp at h
  | cons c t ih =>
    by_cases hc : p c
    · simp only [List.dropWhile_cons, hc, if_true] at h ⊢
      simpa [hc] using ih h
    · simp [List.dropWhile_cons, hc]

theorem pyStrip_append_left {u : PyStr} (hu : allSpace u) (l : PyStr) :
    pyStrip (u ++ l) = pyStrip l := by
  unfold pyStrip
  rw [dropWhile_append_allSpace hu]

theorem pyStrip_append_right {u : PyStr} (hu : allSpace u) (l : PyStr) :
    pyStrip (l ++ u) = pyStrip l := by
  unfold pyStrip
  by_cases h : List.dropWhile isSpaceCode l = []
  · have hl : ∀ x ∈ l, isSpaceCode x = true := List.dropWhile_eq_nil_iff.mp h
    have h2 : List.dropWhile isSpaceCode (l ++ u) = [] := by
      rw [dropWhile_append_allSpace hl, List.dropWhile_eq_nil_iff.mpr hu]
    rw [h, h2]
  · rw [dropWhile_append_of_ne_nil u h, rdropWhile_append_allSpace hu]

theorem head_not_of_dropWhile_eq_cons {p : Nat → Bool} {l rest : PyStr}
    {c : Nat} (h : List.dropWhile p l = c :: rest) : p c = false := by
  induction l with
  | nil => simp at h
  | cons a t ih =>
    by_cases ha : p a
    · rw [List.dropWhile_cons, if_pos ha] at h
      exact ih h
    · rw [List.dropWhile_cons, if_neg ha] at h
      injection h with h1 _
      subst h1
      exact Bool.eq_false_iff.mpr ha

theorem dropWhile_pyStrip (l : PyStr) :
    List.dropWhile isSpaceCode (pyStrip l) = pyStrip l := by
  cases hm : pyStrip l with
  | nil => rfl
  | cons c t =>
    obtain ⟨r, hr⟩ := List.rdropWhile_prefix isSpaceCode
      (List.dropWhile isSpaceCode l)
    rw [show List.rdropWhile isSpaceCode (List.dropWhile isSpaceCode l)
          = pyStrip l from rfl, hm] at hr
    have hr' : List.dropWhile isSpaceCode l = c :: (t ++ r) := by
      rw [← hr]
      simp
    have hc := head_not_of_dropWhile_eq_cons hr'
    simp [List.dropWhile_cons, hc]

theorem pyStrip_idem (l : PyStr) : pyStrip (pyStrip l) = pyStrip l := by
  conv_lhs => rw [pyStrip, dropWhile_pyStrip]
  rw [show pyStrip l = List.rdropWhile isSpaceCode
        (List.dropWhile isSpaceCode l) from rfl]
  rw [List.rdropWhile_idempotent]

theorem dropWhile_map_lower (l : PyStr) :
    List.dropWhile isSpaceCode (l.map lowerCode)
      = (List.dropWhile isSpaceCode l).map lowerCode := by
  induction l with
  | nil => rfl
  | cons c t ih =>
    by_cases hc : isSpaceCode c = true
    · simp [List.dropWhile_cons, isSpaceCode_lowerCode, hc, ih]
    · simp [List.dropWhile_cons, isSpaceCode_lowerCode,
            Bool.not_eq_true _ ▸ hc, hc]

theorem pyStrip_map_lower (l : PyStr) :
    pyStrip (l.map lowerCode) = (pyStrip l).map lowerCode := by
  unfold pyStrip List.rdropWhile
  rw [dropWhile_map_lower, ← List.map_reverse, dropWhile_map_lower,
      List.map_reverse]

theorem map_lower_of_forall₂ {cx cy : PyStr}
    (h : List.Forall₂ caseEquiv cx cy) :
    cx.map lowerCode = cy.map lowerCode := by
  induction h with
  | nil => rfl
  | cons hcd _ ih => simp [lowerCode_eq_of_caseEquiv hcd, ih]

/-- Claim C9 (confirmed): `normalize` is idempotent, and any two strings that
differ only in ASCII letter casing and/or surrounding whitespace
normalize to the same string. -/
theorem quiz_C9_normalize :
    (∀ x : PyStr, normalize (normalize x) = normalize x)
  ∧ (∀ x y : PyStr, caseWsVariant x y → normalize x = normalize y) := by
  constructor
  · intro x
    unfold normalize
    rw [pyStrip_map_lower, pyStrip_idem, List.map_map]
    have : lowerCode ∘ lowerCode = lowerCode := funext lowerCode_idem
    rw [this]
  · intro x y hv
    obtain ⟨u₁, cx, u₂, v₁, cy, v₂, hx, hy, h1, h2, h3, h4, hf⟩ := hv
    subst hx
    subst hy
    unfold normalize
    rw [List.append_assoc, pyStrip_append_left h1, pyStrip_append_right h2,
        List.append_assoc, pyStrip_append_left h3, pyStrip_append_right h4,
        ← pyStrip_map_lower, ← pyStrip_map_lower, map_lower_of_forall₂ hf]

theorem quiz_C9_witness :
    normalize (String.codes " Go") = normalize (String.codes "gO ") :=
  quiz_C9_normalize.2 _ _
    ⟨String.codes " ", String.codes "Go", [], [], String.codes "gO",
     String.codes " ", by decide, by decide,
     by unfold allSpace; decide, by unfold allSpace; decide,
     by unfold allSpace; decide, by unfold allSpace; decide,
     List.Forall₂.cons (by unfold caseEquiv; decide)
       (List.Forall₂.cons (by unfold caseEquiv; decide) List.Forall₂.nil)⟩

/-! ### C10 -/

theorem replaceMarker_cons_ne {x : Nat} (hx : x ≠ 95) (new s : PyStr) :
    replaceMarker new (x :: s) = x :: replaceMarker new s := by
  simp [replaceMarker, hx]

theorem replaceMarker_no_us {l : PyStr} (h : ∀ x ∈ l, x ≠ usCode) (new : PyStr) :
    replaceMarker new l = l := by
  induction l with
  | nil => rfl
  | cons c t ih =>
    rw [replaceMarker_cons_ne (h c (by simp)) new t,
        ih (fun x hx => h x (by simp [hx]))]

theorem replaceMarker_append {a : PyStr} (ha : ∀ x ∈ a, x ≠ usCode)
    (new s : PyStr) :
    replaceMarker new (a ++ (marker ++ s)) = a ++ (new ++ replaceMarker new s) := by
  induction a with
  | nil => rfl
  | cons c t ih =>
    rw [List.cons_append, replaceMarker_cons_ne (ha c (by simp)) new,
        ih (fun x hx => ha x (by simp [hx])), List.cons_append]

theorem replaceChar_no_occur {o : Nat} {l : PyStr} (h : ∀ x ∈ l, x ≠ o) (n : Nat) :
    replaceChar o n l = l := by
  induction l with
  | nil => rfl
  | cons c t ih =>
    simp only [replaceChar, List.map_cons, if_neg (h c (by simp))]
    have := ih (fun x hx => h x (by simp [hx]))
    simp only [replaceChar] at this
    rw [this]

/-- Claim C10 (confirmed): row acceptance only requires the blank marker to
occur somewhere in the (normalized) cloze text — any number of occurrences at
least one is accepted — and `build_full_en` replaces every occurrence of
`"____"` by the answer, not just the first. -/
theorem quiz_C10_marker_occurrences :
    (∀ (r : RawRow) (n : Int),
      parsePyInt (getCell r.id) = some n →
      containsSub marker (replaceChar fullWidthUS usCode (getCell r.cloze_en))
          = true →
      getCell r.answer ≠ [] → getCell r.full_ja ≠ [] →
      processRow r = .ok ⟨getCell r.id, n, getCell r.ja,
        replaceChar fullWidthUS usCode (getCell r.cloze_en),
        getCell r.answer, getCell r.full_ja⟩)
  ∧ (∀ a b c new : PyStr,
      (∀ x ∈ a ++ b ++ c, x ≠ usCode ∧ x ≠ fullWidthUS) →
      containsSub marker (a ++ marker ++ b ++ marker ++ c) = true
      ∧ build_full_en (a ++ marker ++ b ++ marker ++ c) new
          = a ++ new ++ b ++ new ++ c) := by
  constructor
  · intro r n hn hm ha hf
    simp [processRow, hn, hm, ha, hf]
  · intro a b c new h
    have ha : ∀ x ∈ a, x ≠ usCode := fun x hx => (h x (by simp [hx])).1
    have hb : ∀ x ∈ b, x ≠ usCode := fun x hx => (h x (by simp [hx])).1
    have hc : ∀ x ∈ c, x ≠ usCode := fun x hx => (h x (by simp [hx])).1
    have hfw : ∀ x ∈ a ++ marker ++ b ++ marker ++ c, x ≠ fullWidthUS := by
      intro x hx
      simp only [List.mem_append] at hx
      rcases hx with ((((hxa | hxm) | hxb) | hxm) | hxc)
      · exact (h x (by simp [hxa])).2
      · have : x = usCode := by
          simpa [marker] using hxm
        subst this
        decide
      · exact (h x (by simp [hxb])).2
      · have : x = usCode := by
          simpa [marker] using hxm
        subst this
        decide
      · exact (h x (by simp [hxc])).2
    constructor
    · have := containsSub_append_middle marker a (b ++ marker ++ c)
      simpa [List.append_assoc] using this
    · unfold build_full_en
      rw [replaceChar_no_occur hfw]
      simp only [List.append_assoc]
      rw [replaceMarker_append ha, replaceMarker_append hb,
          replaceMarker_no_us hc]

theorem quiz_C10_witness :
    processRow ⟨some (String.codes "2"), some (String.codes "ja"),
        some (String.codes "I ____ and ____ now"), some (String.codes "go"),
        some (String.codes "tr")⟩
      = .ok ⟨String.codes "2", 2, String.codes "ja",
             String.codes "I ____ and ____ now", String.codes "go",
             String.codes "tr"⟩
    ∧ (containsSub marker (String.codes "I " ++ marker ++ String.codes " and "
          ++ marker ++ String.codes " now") = true
       ∧ build_full_en (String.codes "I " ++ marker ++ String.codes " and "
            ++ marker ++ String.codes " now") (String.codes "go")
          = String.codes "I " ++ String.codes "go" ++ String.codes " and "
            ++ String.codes "go" ++ String.codes " now") :=
  ⟨by
    have h1 := quiz_C10_marker_occurrences.1
      ⟨some (String.codes "2"), some (String.codes "ja"),
       some (String.codes "I ____ and ____ now"), some (String.codes "go"),
       some (String.codes "tr")⟩ 2 (by decide) (by decide) (by decide)
      (by decide)
    exact h1.trans (by decide),
   quiz_C10_marker_occurrences.2 (String.codes "I ") (String.codes " and ")
     (String.codes " now") (String.codes "go") (by decide)⟩

end Quiz
